import Mathlib

namespace Chisato

/-- JSON values as produced by the JavaScript builtin JSON.parse. Numeric
literals are kept as their source lexeme: no claim in this development depends
on numeric values, only on parse success, field lookup and truthiness. Objects
keep fields in insertion order; a duplicate key overwrites the value in place,
as JavaScript object construction does. -/
inductive Json where
  | null : Json
  | bool (b : Bool) : Json
  | num (lexeme : String) : Json
  | str (s : String) : Json
  | arr (elems : List Json) : Json
  | obj (fields : List (String × Json)) : Json

/-- The opening brace character (written via its code to keep string scanning
tools happy). -/
def lbrace : Char := '\x7b'

/-- The closing brace character. -/
def rbrace : Char := '\x7d'

/-- Insert a key into a JavaScript object field list: a duplicate key
overwrites the value at its original position, a fresh key is appended. -/
def objInsert : List (String × Json) → String → Json → List (String × Json)
  | [], k, v => [(k, v)]
  | (k', v') :: rest, k, v =>
      if k' = k then (k', v) :: rest else (k', v') :: objInsert rest k v

/-- Field lookup: JavaScript property access on a parsed value. Access on a
non-object yields undefined, modelled as none. -/
def Json.getField : Json → String → Option Json
  | .obj fs, k => (fs.find? (fun p => p.1 = k)).map (fun p => p.2)
  | _, _ => none

/-- Whether a JSON number lexeme denotes zero: its mantissa digits are all 0. -/
def numIsZero (lexeme : String) : Bool :=
  let noSign := if lexeme.startsWith "-" then lexeme.drop 1 else lexeme
  let mantissa := (noSign.split (fun c => c = 'e' || c = 'E')).headD ""
  mantissa.data.all (fun c => c = '0' || c = '.')

/-- JavaScript truthiness of a parsed JSON value (empty string, zero and
null are falsy; every object and array is truthy). -/
def Json.truthy : Json → Bool
  | .null => false
  | .bool b => b
  | .num lexeme => !numIsZero lexeme
  | .str s => !(s = "")
  | .arr _ => true
  | .obj _ => true

/-- An action call parsed from model text, as pushed by the parser:
the fields are whatever JSON.parse produced (a string name in every
well-formed block). -/
structure ActionCall where
  action : Json
  parameters : Json

/-- Result of one action dispatch. -/
structure ActionResult where
  action : Json
  success : Bool
  result : Option Json
  error : Option String

/-- JSON-grammar whitespace (the four characters JSON.parse skips). -/
def isJsonWs (c : Char) : Bool :=
  c = ' ' || c = '\t' || c = '\n' || c = '\r'

/-- Drop leading JSON whitespace. -/
def skipWs : List Char → List Char
  | [] => []
  | c :: cs => if isJsonWs c then skipWs cs else c :: cs

/-- Value of a hexadecimal digit, over character codes (digits 48-57,
lowercase 97-102, uppercase 65-70). -/
def hexDigitValue (c : Char) : Option Nat :=
  let n := c.toNat
  if 48 ≤ n && n ≤ 57 then some (n - 48)
  else if 97 ≤ n && n ≤ 102 then some (n - 87)
  else if 65 ≤ n && n ≤ 70 then some (n - 55)
  else none

/-- Body of a JSON string literal, after the opening quote: returns the decoded
characters and the remaining input after the closing quote. Escapes follow the
JSON grammar; a \u escape is mapped through Char.ofNat per code point (lone
surrogate halves, which Lean characters cannot represent, fall back to NUL; no
claim depends on them). An unescaped control character is rejected, as
JSON.parse does. -/
def jstrBody : List Char → Option (List Char × List Char)
  | [] => none
  | c :: cs =>
    if c = '"' then some ([], cs)
    else if c = '\\' then
      match cs with
      | [] => none
      | e :: cs2 =>
        if e = '"' || e = '\\' || e = '/' then
          (jstrBody cs2).map (fun r => (e :: r.1, r.2))
        else if e = 'b' then (jstrBody cs2).map (fun r => ('\x08' :: r.1, r.2))
        else if e = 'f' then (jstrBody cs2).map (fun r => ('\x0c' :: r.1, r.2))
        else if e = 'n' then (jstrBody cs2).map (fun r => ('\n' :: r.1, r.2))
        else if e = 'r' then (jstrBody cs2).map (fun r => ('\r' :: r.1, r.2))
        else if e = 't' then (jstrBody cs2).map (fun r => ('\t' :: r.1, r.2))
        else if e = 'u' then
          match cs2 with
          | h1 :: h2 :: h3 :: h4 :: cs3 =>
            match hexDigitValue h1, hexDigitValue h2, hexDigitValue h3, hexDigitValue h4 with
            | some v1, some v2, some v3, some v4 =>
              let code := ((v1 * 16 + v2) * 16 + v3) * 16 + v4
              (jstrBody cs3).map (fun r => (Char.ofNat code :: r.1, r.2))
            | _, _, _, _ => none
          | _ => none
        else none
    else if c.toNat < 32 then none
    else (jstrBody cs).map (fun r => (c :: r.1, r.2))

/-- Longest run of decimal digits at the head of the input. -/
def takeDigits (cs : List Char) : List Char × List Char :=
  match cs with
  | [] => ([], [])
  | c :: rest =>
    if '0' ≤ c && c ≤ '9' then
      let r := takeDigits rest
      (c :: r.1, r.2)
    else ([], cs)

/-- The integer part of a JSON number: 0, or a nonzero digit followed by
digits. -/
def jintPart (cs : List Char) : Option (List Char × List Char) :=
  match cs with
  | [] => none
  | c :: rest =>
    if c = '0' then some ([c], rest)
    else if '1' ≤ c && c ≤ '9' then
      let r := takeDigits rest
      some (c :: r.1, r.2)
    else none

/-- The optional fraction part of a JSON number. -/
def jfracPart (cs : List Char) : Option (List Char × List Char) :=
  match cs with
  | '.' :: rest =>
    match takeDigits rest with
    | ([], _) => none
    | (ds, rest2) => some ('.' :: ds, rest2)
  | _ => some ([], cs)

/-- The optional exponent part of a JSON number. -/
def jexpPart (cs : List Char) : Option (List Char × List Char) :=
  match cs with
  | c :: rest =>
    if c = 'e' || c = 'E' then
      let signed :=
        match rest with
        | s :: rest2 => if s = '+' || s = '-' then ([s], rest2) else ([], rest)
        | [] => ([], [])
      match takeDigits signed.2 with
      | ([], _) => none
      | (ds, rest3) => some (c :: signed.1 ++ ds, rest3)
    else some ([], cs)
  | [] => some ([], [])

/-- A JSON number literal at the head of the input: returns its lexeme. -/
def jnumber (cs : List Char) : Option (String × List Char) :=
  let signed :=
    match cs with
    | '-' :: rest => (['-'], rest)
    | _ => ([], cs)
  match jintPart signed.2 with
  | none => none
  | some (ip, rest1) =>
    match jfracPart rest1 with
    | none => none
    | some (fp, rest2) =>
      match jexpPart rest2 with
      | none => none
      | some (ep, rest3) => some (String.mk (signed.1 ++ ip ++ fp ++ ep), rest3)

mutual

/-- A JSON value at the head of the input (fuel-indexed recursion; the fuel
passed by jsonParse is an upper bound on the recursion depth). -/
def jvalue : Nat → List Char → Option (Json × List Char)
  | 0, _ => none
  | fuel + 1, cs =>
    match skipWs cs with
    | [] => none
    | c :: rest =>
      if c = '"' then (jstrBody rest).map (fun r => (Json.str (String.mk r.1), r.2))
      else if c = lbrace then jobjBody fuel rest
      else if c = '[' then jarrBody fuel rest
      else if c = 't' then
        if rest.take 3 = ['r', 'u', 'e'] then some (Json.bool true, rest.drop 3) else none
      else if c = 'f' then
        if rest.take 4 = ['a', 'l', 's', 'e'] then some (Json.bool false, rest.drop 4) else none
      else if c = 'n' then
        if rest.take 3 = ['u', 'l', 'l'] then some (Json.null, rest.drop 3) else none
      else (jnumber (c :: rest)).map (fun r => (Json.num r.1, r.2))

/-- The inside of a JSON object, after the opening brace. -/
def jobjBody : Nat → List Char → Option (Json × List Char)
  | 0, _ => none
  | fuel + 1, cs =>
    match skipWs cs with
    | c :: rest =>
      if c = rbrace then some (Json.obj [], rest) else jmembers fuel (c :: rest) []
    | [] => none

/-- One or more key-value members of a JSON object, accumulating fields with
JavaScript duplicate-key overwrite semantics. -/
def jmembers : Nat → List Char → List (String × Json) → Option (Json × List Char)
  | 0, _, _ => none
  | fuel + 1, cs, acc =>
    match skipWs cs with
    | '"' :: rest =>
      match jstrBody rest with
      | none => none
      | some (key, rest2) =>
        match skipWs rest2 with
        | ':' :: rest3 =>
          match jvalue fuel rest3 with
          | none => none
          | some (v, rest4) =>
            let acc2 := objInsert acc (String.mk key) v
            match skipWs rest4 with
            | ',' :: rest5 => jmembers fuel rest5 acc2
            | c :: rest5 => if c = rbrace then some (Json.obj acc2, rest5) else none
            | [] => none
        | _ => none
    | _ => none

/-- The inside of a JSON array, after the opening bracket. -/
def jarrBody : Nat → List Char → Option (Json × List Char)
  | 0, _ => none
  | fuel + 1, cs =>
    match skipWs cs with
    | ']' :: rest => some (Json.arr [], rest)
    | _ => jelems fuel cs []

/-- One or more elements of a JSON array. -/
def jelems : Nat → List Char → List Json → Option (Json × List Char)
  | 0, _, _ => none
  | fuel + 1, cs, acc =>
    match jvalue fuel cs with
    | none => none
    | some (v, rest) =>
      match skipWs rest with
      | ',' :: rest2 => jelems fuel rest2 (acc ++ [v])
      | ']' :: rest2 => some (Json.arr (acc ++ [v]), rest2)
      | _ => none

end

/-- Model of the JavaScript builtin JSON.parse: parse one JSON value and
require only whitespace after it. The fuel bounds the recursion depth; three
units per input character strictly dominates the depth any input can reach
(every cycle through jvalue, jobjBody or jarrBody and their element loops
consumes at least one character and uses at most three fuel units). -/
def jsonParse (s : String) : Option Json :=
  match jvalue (3 * s.data.length + 4) s.data with
  | some (v, rest) => if skipWs rest = [] then some v else none
  | none => none

/-- Escape one character for JSON.stringify output. -/
def jescapeChar (c : Char) : String :=
  if c = '"' then "\\\""
  else if c = '\\' then "\\\\"
  else if c = '\n' then "\\n"
  else if c = '\r' then "\\r"
  else if c = '\t' then "\\t"
  else if c = '\x08' then "\\b"
  else if c = '\x0c' then "\\f"
  else if c.toNat < 32 then
    let hex := Nat.toDigits 16 c.toNat
    "\\u" ++ String.mk (List.replicate (4 - hex.length) '0') ++ String.mk hex
  else String.mk [c]

/-- A JSON string literal for JSON.stringify output. -/
def jquote (s : String) : String :=
  "\"" ++ String.join (s.data.map jescapeChar) ++ "\""

mutual

/-- Model of the JavaScript builtin JSON.stringify on parsed values (numbers
are emitted as their stored lexeme; it is used in this development only to
compare parameter objects for equality, as the wrapper does). -/
def jsonStringify : Json → String
  | .null => "null"
  | .bool true => "true"
  | .bool false => "false"
  | .num lexeme => lexeme
  | .str s => jquote s
  | .arr xs => "[" ++ stringifyElems xs ++ "]"
  | .obj fs => String.mk [lbrace] ++ stringifyFields fs ++ String.mk [rbrace]

/-- Comma-separated stringified array elements. -/
def stringifyElems : List Json → String
  | [] => ""
  | [x] => jsonStringify x
  | x :: xs => jsonStringify x ++ "," ++ stringifyElems xs

/-- Comma-separated stringified object fields. -/
def stringifyFields : List (String × Json) → String
  | [] => ""
  | [(k, v)] => jquote k ++ ":" ++ jsonStringify v
  | (k, v) :: fs => jquote k ++ ":" ++ jsonStringify v ++ "," ++ stringifyFields fs

end

mutual

/-- JavaScript coercion of a value to a string, as performed by template
interpolation and Array.join (objects print as [object Object], arrays join
their elements with commas; numbers print as their stored lexeme). -/
def jsTemplate : Json → String
  | .null => "null"
  | .bool true => "true"
  | .bool false => "false"
  | .num lexeme => lexeme
  | .str s => s
  | .arr xs => jsTemplateElems xs
  | .obj _ => "[object Object]"

/-- Elements of an array joined with commas, each coerced to a string. -/
def jsTemplateElems : List Json → String
  | [] => ""
  | [x] => jsTemplate x
  | x :: xs => jsTemplate x ++ "," ++ jsTemplateElems xs

end

/-- JavaScript strict equality on parsed values as used by the wrapper's
bookkeeping: primitives compare by value (number equality is modelled by
lexeme equality; the claims only ever compare string-valued action names),
while two separately parsed objects or arrays are distinct references and
compare unequal. -/
def jsStrictEq : Json → Json → Bool
  | .null, .null => true
  | .bool a, .bool b => a == b
  | .num a, .num b => a == b
  | .str a, .str b => a == b
  | _, _ => false

/-- JavaScript strict equality between a parsed value and a string literal
(the check call.action === a name performed by the loop). -/
def jsEqString (j : Json) (s : String) : Bool :=
  match j with
  | .str t => t == s
  | _ => false

/-- Whether pat occurs as a contiguous substring of s (the JavaScript
String.includes). -/
def hasSubstr (s pat : List Char) : Bool :=
  if pat.isPrefixOf s then true
  else
    match s with
    | [] => false
    | _ :: t => hasSubstr t pat

/-- String.includes on Lean strings. -/
def includesSub (s pat : String) : Bool :=
  hasSubstr s.data pat.data

/-- The substring pre-filter the parser applies before JSON.parse: the
candidate text must mention a quoted action key. -/
def actionKey : String := "\"action\""

/-- The quoted parameters key of the pre-filter. -/
def parametersKey : String := "\"parameters\""

/-- What the depth-tracking parser does with a balanced candidate span: it is
accepted exactly when it passes the substring pre-filter, JSON.parse succeeds,
and both the action and parameters fields are present and truthy; otherwise it
is silently discarded (yielding no call). Mirrors the body of the
braceCount = 0 branch of parseActionCalls in the source. -/
def candidateCalls (cur : String) : List ActionCall :=
  if includesSub cur actionKey && includesSub cur parametersKey then
    match jsonParse cur with
    | some v =>
      match v.getField "action", v.getField "parameters" with
      | some a, some p => if a.truthy && p.truthy then [⟨a, p⟩] else []
      | _, _ => []
    | none => []
  else []

/-- Scanner state of the depth-tracking parser: whether it is inside a
candidate JSON span, the current brace depth, the captured span so far
(kept as its character list; a Lean string is exactly a list of characters)
and the action calls accumulated so far. -/
structure ScanState where
  inJson : Bool
  braceCount : Int
  currentJson : List Char
  acc : List ActionCall

/-- Initial scanner state. -/
def initScan : ScanState :=
  ⟨false, 0, [], []⟩

/-- One character step of the depth-tracking parser (the body of the for loop
of parseActionCalls in the source): an opening brace starts or deepens a
capture, a closing brace inside a capture shallows it and, on reaching depth
zero, finishes the candidate; any character inside a capture is appended;
everything else is ignored. -/
def scanStep (st : ScanState) (c : Char) : ScanState :=
  if c = lbrace then
    if !st.inJson then
      { st with inJson := true, braceCount := 1, currentJson := [lbrace] }
    else
      { st with braceCount := st.braceCount + 1, currentJson := st.currentJson ++ [c] }
  else if c = rbrace && st.inJson then
    let cur := st.currentJson ++ [c]
    let bc := st.braceCount - 1
    if bc = 0 then
      { inJson := false, braceCount := 0, currentJson := [],
        acc := st.acc ++ candidateCalls (String.mk cur) }
    else
      { st with braceCount := bc, currentJson := cur }
  else if st.inJson then
    { st with currentJson := st.currentJson ++ [c] }
  else st

/-- The depth-tracking parser: extract action calls from raw model output by
scanning character by character with a brace counter. Embeds parseActionCalls
of the source (the brace-counting implementation, which the specification
adopts; the repository also carries an older single-regex variant). -/
def parseActionCalls (response : String) : List ActionCall :=
  (response.data.foldl scanStep initScan).acc

/-- Render a sequence of action results into the single text block appended to
the transcript: one line per result, empty input yields the empty string.
Embeds formatActionResults of the source. -/
def formatActionResults (results : List ActionResult) : String :=
  if results.length = 0 then ""
  else
    let formatted := results.map (fun result =>
      if result.success then
        "Action '" ++ jsTemplate result.action ++ "' completed successfully. Result: "
          ++ (match result.result with
              | some r => jsonStringify r
              | none => "undefined")
      else
        "Action '" ++ jsTemplate result.action ++ "' failed. Error: "
          ++ (match result.error with
              | some e => e
              | none => "undefined"))
    "Action results:\n" ++ String.intercalate "\n" formatted

/-- Roles a transcript message can carry. -/
inductive Role where
  | system
  | user
  | assistant
deriving DecidableEq, Repr

/-- One transcript message. -/
structure Message where
  role : Role
  content : String
deriving DecidableEq, Repr

/-- Declared parameter of an action (rendered into the capability manifest;
carried here for the data model, no claim depends on it). -/
structure ParameterDefinition where
  name : String
  type : String
  description : String
  required : Bool
deriving DecidableEq, Repr

/-- An executable action. The execute field models the possibly-failing,
effectful JavaScript callback: it receives the call parameters and the
(1-based) attempt number of the dispatch retry loop, so that distinct attempts
of the same dispatch may behave differently, and returns either a result value
or a thrown error message. -/
structure IAction where
  name : String
  description : String
  parameters : List ParameterDefinition
  execute : Json → Nat → Except String Json

namespace ActionRegistry

/-- A registry is the insertion-ordered list of registered actions (the source
stores them in a name-keyed Map; registration keeps names unique). -/
def Registry := List IAction

/-- Registration error text for a duplicate name. -/
def dupMsg (name : String) : String :=
  "Action with name '" ++ name ++ "' is already registered"

/-- Register an action: fails if an action with the same name already exists
(no silent overwrite), otherwise appends. Embeds
ActionRegistry.registerAction of the source. -/
def registerAction (r : List IAction) (action : IAction) : Except String (List IAction) :=
  if r.any (fun a => a.name = action.name) then
    .error (dupMsg action.name)
  else
    .ok (r ++ [action])

/-- Look up an action by name. -/
def getAction (r : List IAction) (name : String) : Option IAction :=
  r.find? (fun a => a.name = name)

/-- Look up an action by the raw parsed action value, as the dispatcher does:
a Map keyed by strings answers only string keys, so a non-string action value
is simply not found. -/
def getActionByKey (r : List IAction) (key : Json) : Option IAction :=
  match key with
  | .str s => getAction r s
  | _ => none

end ActionRegistry

/-- The wrapper's bookkeeping record for one executed action (the source also
stores a wall-clock timestamp, which has no shallow embedding and which no
claim mentions; the result field is always null in the source). -/
structure ActionExecution where
  actionName : Json
  parameters : Json
  result : Json

/-- Observable callback invocations, in order. Each constructor stands for one
observer callback of the source with its arguments. -/
inductive Event where
  | invalidOutput (attempt : Nat) (error : String) (output : String)
  | actionRetry (actionName : Json) (attempt : Nat) (error : String)
  | actionMaxRetries (actionName : Json) (error : String)
  | userOutput (message : Json)
  | actionExecuted (actionName : Json) (parameters : Json)

/-- Agent configuration after construction. The source defaults maxIterations
at construction time with JavaScript or-defaulting (so a configured 0 becomes
10 and the stored value is always at least 1) and defaults maxRetries and
maxActionRetries at their use sites; prompt-text options are omitted here
because the model call is abstracted as an oracle over responses. -/
structure AgentOptions where
  maxIterations : Nat
  maxRetries : Option Nat
  maxActionRetries : Option Nat

/-- JavaScript or-defaulting on an optional count: absent or zero (falsy)
yields the default. -/
def jsOrNat (o : Option Nat) (d : Nat) : Nat :=
  match o with
  | none => d
  | some n => if n = 0 then d else n

/-- The constructor's defaulting of maxIterations (options.maxIterations or
10). -/
def mkMaxIterations (configured : Option Nat) : Nat :=
  jsOrNat configured 10

/-- Whether the response textually looks like an action call: it contains both
the quoted action key and the quoted parameters key. -/
def looksLikeAction (response : String) : Bool :=
  includesSub response actionKey && includesSub response parametersKey

/-- Whether the response is empty or whitespace-only (the source tests
response.trim().length === 0, which holds exactly when every character is
whitespace). -/
def isBlank (response : String) : Bool :=
  response.data.all isJsonWs

/-- Response validation: the reason a model response is rejected, if any. A
response is rejected when it is blank, or when it looks like an action call
but the parser extracts zero calls from it. Embeds the validation block of
Agent.chat. -/
def validateResponse (response : String) : Option String :=
  if isBlank response then
    some "LLM returned empty response"
  else if looksLikeAction response && (parseActionCalls response).isEmpty then
    some "Response appears to contain malformed action JSON"
  else
    none

/-- The model-sending capability, abstracted as an oracle over the index of
the provider call within one chat invocation: any concrete provider, on a
given run, is observationally one such oracle. -/
def Provider := Nat → String

/-- The fatal error raised when validation retries are exhausted. -/
def invalidOutputMsg (maxRetries : Nat) (lastError : String) : String :=
  "LLM produced invalid output after " ++ toString maxRetries
    ++ " attempts. Last error: " ++ lastError

/-- The response-validation retry loop of Agent.chat: up to maxRetries
attempts, each rejected attempt reports an invalidOutput event; exhausting the
attempts yields the fatal error. Arguments: attempts remaining, current
(1-based) attempt number, current provider call index. Returns the accepted
response or the error, the updated call index, and the events, in order. The
fuel-zero case is the source's unreachable fallback throw after the for loop. -/
def retryLoop (provider : Nat → String) (maxRetries : Nat) :
    Nat → Nat → Nat → Except String String × Nat × List Event
  | 0, _, callIdx => (.error "Failed to get valid response from LLM", callIdx, [])
  | remaining + 1, attempt, callIdx =>
    let response := provider callIdx
    match validateResponse response with
    | none => (.ok response, callIdx + 1, [])
    | some errMsg =>
      let ev := Event.invalidOutput attempt errMsg response
      if attempt = maxRetries then
        (.error (invalidOutputMsg maxRetries errMsg), callIdx + 1, [ev])
      else
        let rec' := retryLoop provider maxRetries remaining (attempt + 1) (callIdx + 1)
        (rec'.1, rec'.2.1, ev :: rec'.2.2)

/-- The per-action execution retry loop of Agent._executeActions: up to
maxActionRetries attempts; each failed attempt before the last reports an
actionRetry event; the last failure reports an actionMaxRetries event and a
failed result whose error names the attempt count. Arguments: attempts
remaining and current (1-based) attempt number. Returns the pushed results
(exactly one, unless the bound is zero and the loop body never runs) and the
events. -/
def attemptLoop (action : IAction) (callAction params : Json) (maxActionRetries : Nat) :
    Nat → Nat → List ActionResult × List Event
  | 0, _ => ([], [])
  | remaining + 1, attempt =>
    match action.execute params attempt with
    | .ok result => ([⟨callAction, true, some result, none⟩], [])
    | .error err =>
      if attempt = maxActionRetries then
        ([⟨callAction, false, none,
            some ("Action failed after " ++ toString maxActionRetries ++ " attempts: " ++ err)⟩],
          [.actionMaxRetries callAction err])
      else
        let rec' := attemptLoop action callAction params maxActionRetries remaining (attempt + 1)
        (rec'.1, .actionRetry callAction attempt err :: rec'.2)

/-- Dispatch a round's parsed calls in order: an unknown action yields a
synthesized failed result; a known one runs the retry loop; every call is
processed and nothing escapes the round. Embeds Agent._executeActions. -/
def executeActions (registry : List IAction) (maxActionRetries : Nat) :
    List ActionCall → List ActionResult × List Event
  | [] => ([], [])
  | call :: restCalls =>
    let tail := executeActions registry maxActionRetries restCalls
    match ActionRegistry.getActionByKey registry call.action with
    | none =>
      (⟨call.action, false, none,
          some ("Action '" ++ jsTemplate call.action ++ "' not found")⟩ :: tail.1,
        tail.2)
    | some action =>
      let head := attemptLoop action call.action call.parameters maxActionRetries
        maxActionRetries 1
      (head.1 ++ tail.1, head.2 ++ tail.2)

/-- How one chat invocation's loop ends: a recorded final response, running
out of iterations (the while condition failed), or an error thrown inside the
loop. -/
inductive ChatOutcome where
  | finished (response : String)
  | exhausted
  | errored (msg : String)

/-- Mutable state the loop threads: the transcript, the events so far, the
number of provider calls made, and the iteration counter. -/
structure LoopState where
  history : List Message
  events : List Event
  calls : Nat
  iterations : Nat

/-- The fatal error raised when the iteration bound is hit. -/
def maxIterMsg (maxIterations : Nat) : String :=
  "Maximum iterations (" ++ toString maxIterations ++ ") reached"

/-- The while loop of Agent.chat. The fuel is the number of loop entries the
while condition still allows (maxIterations minus the iterations already
counted); fuel zero is the condition turning false. One iteration: validate a
response with retries (an exhausted retry throws out of the loop), append the
assistant message, parse calls; no calls means this response is final;
otherwise dispatch all calls, finish if one of them is the terminal
user_output call, else append the formatted results as a user message and
continue. -/
def chatLoop (provider : Nat → String) (registry : List IAction)
    (maxRetries maxActionRetries : Nat) :
    Nat → LoopState → LoopState × ChatOutcome
  | 0, st => (st, .exhausted)
  | fuel + 1, st =>
    let st1 : LoopState := { st with iterations := st.iterations + 1 }
    let attempt := retryLoop provider maxRetries maxRetries 1 st1.calls
    let st2 : LoopState := { st1 with events := st1.events ++ attempt.2.2, calls := attempt.2.1 }
    match attempt.1 with
    | .error msg => (st2, .errored msg)
    | .ok response =>
      let st3 : LoopState :=
        { st2 with history := st2.history ++ [⟨.assistant, response⟩] }
      let actionCalls := parseActionCalls response
      if actionCalls.isEmpty then
        (st3, .finished response)
      else
        let actionResults := executeActions registry maxActionRetries actionCalls
        let st4 : LoopState := { st3 with events := st3.events ++ actionResults.2 }
        if actionCalls.any (fun call => jsEqString call.action "user_output") then
          (st4, .finished response)
        else
          let st5 : LoopState :=
            { st4 with history := st4.history ++ [⟨.user, formatActionResults actionResults.1⟩] }
          chatLoop provider registry maxRetries maxActionRetries fuel st5

/-- Everything one chat invocation produces: the returned text or the thrown
error, the transcript after the call, the callback events and the number of
provider calls. -/
structure ChatResult where
  result : Except String String
  history : List Message
  events : List Event
  calls : Nat

/-- Agent.chat: append the user message, run the loop, and afterwards throw
the max-iterations error whenever the iteration counter reached the bound,
even when the loop had recorded a final response in its last permitted round
(the source checks iterations >= maxIterations after the loop regardless of
how it exited). -/
def chat (provider : Nat → String) (registry : List IAction) (opts : AgentOptions)
    (history0 : List Message) (userMessage : String) : ChatResult :=
  let history1 := history0 ++ [⟨.user, userMessage⟩]
  let maxRetries := jsOrNat opts.maxRetries 3
  let maxActionRetries := jsOrNat opts.maxActionRetries 2
  let out := chatLoop provider registry maxRetries maxActionRetries
    opts.maxIterations ⟨history1, [], 0, 0⟩
  match out.2 with
  | .errored msg => ⟨.error msg, out.1.history, out.1.events, out.1.calls⟩
  | .exhausted =>
    ⟨.error (maxIterMsg opts.maxIterations), out.1.history, out.1.events, out.1.calls⟩
  | .finished response =>
    if opts.maxIterations ≤ out.1.iterations then
      ⟨.error (maxIterMsg opts.maxIterations), out.1.history, out.1.events, out.1.calls⟩
    else
      ⟨.ok response, out.1.history, out.1.events, out.1.calls⟩

/-- Fold of AgentLoop.trackExecutedActions over one assistant message's parsed
calls: skip the terminal user_output call, and record every other call once
(deduplicated by strict-equal name and stringify-equal parameters), reporting
an actionExecuted event for each new record. -/
def trackCalls (acc : List ActionExecution) (evs : List Event) :
    List ActionCall → List ActionExecution × List Event
  | [] => (acc, evs)
  | call :: rest =>
    if jsEqString call.action "user_output" then
      trackCalls acc evs rest
    else
      let alreadyTracked := acc.any (fun e =>
        jsStrictEq e.actionName call.action
          && jsonStringify e.parameters == jsonStringify call.parameters)
      if alreadyTracked then
        trackCalls acc evs rest
      else
        trackCalls (acc ++ [⟨call.action, call.parameters, .null⟩])
          (evs ++ [.actionExecuted call.action call.parameters]) rest

/-- AgentLoop.trackExecutedActions: collect every non-terminal action call
appearing in the assistant messages of the transcript. -/
def trackExecutedActions (history : List Message) : List ActionExecution × List Event :=
  history.foldl
    (fun p m =>
      if m.role = .assistant then trackCalls p.1 p.2 (parseActionCalls m.content) else p)
    ([], [])

/-- Fold of AgentLoop.extractUserOutputs over one message's parsed calls:
collect each user_output call carrying a truthy message, deduplicated by
strict equality, reporting a userOutput event for each new message. -/
def extractCalls (outs : List Json) (evs : List Event) :
    List ActionCall → List Json × List Event
  | [] => (outs, evs)
  | call :: rest =>
    let msg := (call.parameters.getField "message").getD .null
    if jsEqString call.action "user_output" && msg.truthy then
      if outs.any (fun m => jsStrictEq m msg) then
        extractCalls outs evs rest
      else
        extractCalls (outs ++ [msg]) (evs ++ [.userOutput msg]) rest
    else
      extractCalls outs evs rest

/-- AgentLoop.extractUserOutputs: collect emitted output messages from every
assistant message of the transcript and from the final response. -/
def extractUserOutputs (history : List Message) (response : String) :
    List Json × List Event :=
  let fromHistory := history.foldl
    (fun p m =>
      if m.role = .assistant then extractCalls p.1 p.2 (parseActionCalls m.content) else p)
    ([], [])
  extractCalls fromHistory.1 fromHistory.2 (parseActionCalls response)

/-- AgentLoop.generateAutoNotification: the synthesized fallback message
naming the executed actions. -/
def generateAutoNotification (actionsExecuted : List ActionExecution) : String :=
  "Executed actions: "
    ++ String.intercalate ", " (actionsExecuted.map (fun e => jsTemplate e.actionName))

/-- The structured result AgentLoop.run resolves with. -/
structure AgentLoopResult where
  outputs : List Json
  actionsExecuted : List ActionExecution
  success : Bool
  error : Option String

/-- AgentLoop.run's result together with the observable context (transcript,
events, provider calls). -/
structure RunOut where
  result : AgentLoopResult
  history : List Message
  events : List Event
  calls : Nat

/-- AgentLoop.run: reset the per-call accumulators, delegate to Agent.chat,
and on success track executed actions, extract outputs, and synthesize the
fallback notification when actions ran but nothing was emitted; any chat error
is caught and converted into a success=false result carrying the error text
and the (still empty) accumulators. Embeds AgentLoop.run of the source. -/
def run (provider : Nat → String) (registry : List IAction) (opts : AgentOptions)
    (history0 : List Message) (userMessage : String) : RunOut :=
  let c := chat provider registry opts history0 userMessage
  match c.result with
  | .error msg =>
    ⟨⟨[], [], false, some msg⟩, c.history, c.events, c.calls⟩
  | .ok response =>
    let tracked := trackExecutedActions c.history
    let extracted := extractUserOutputs c.history response
    if !tracked.1.isEmpty && extracted.1.isEmpty then
      let message := generateAutoNotification tracked.1
      ⟨⟨extracted.1 ++ [.str message], tracked.1, true, none⟩, c.history,
        c.events ++ tracked.2 ++ extracted.2 ++ [.userOutput (.str message)], c.calls⟩
    else
      ⟨⟨extracted.1, tracked.1, true, none⟩, c.history,
        c.events ++ tracked.2 ++ extracted.2, c.calls⟩

/-- Brace contribution of one character to the scanner's depth counter. -/
def braceDelta (c : Char) : Int :=
  if c = lbrace then 1 else if c = rbrace then -1 else 0

/-- Starting from depth d, the depth stays positive on every proper prefix of
the input and is exactly zero after the whole input: the shape of the tail of
a balanced candidate span. -/
def depthRun : Int → List Char → Bool
  | d, [] => d == 0
  | d, c :: cs => decide (0 < d) && depthRun (d + braceDelta c) cs

/-- A well-formed action block in the sense of the claim: text that opens
with a brace, is raw-brace balanced (so the scanner captures exactly this
span), passes the substring pre-filter, and parses as JSON to an object whose
action field is a non-empty string name and whose parameters field is an
object. -/
def wellFormedBlock (s : String) : Bool :=
  (match s.data with
   | c :: rest => c = lbrace && depthRun 1 rest
   | [] => false)
  && includesSub s actionKey
  && includesSub s parametersKey
  && (match jsonParse s with
      | some v =>
        (match v.getField "action", v.getField "parameters" with
         | some (.str a), some (.obj _) => !(a = "")
         | _, _ => false)
      | none => false)

/-- The action call a well-formed block denotes. -/
def blockCall (s : String) : ActionCall :=
  match jsonParse s with
  | some v => ⟨(v.getField "action").getD .null, (v.getField "parameters").getD .null⟩
  | none => ⟨.null, .null⟩

/-- A segment of model output: either prose noise or an action block. -/
inductive Seg where
  | noise (text : String)
  | block (text : String)

/-- The text a segment contributes. -/
def Seg.text : Seg → String
  | .noise t => t
  | .block t => t

/-- Side condition for the amended parser claim: noise may contain anything
except an opening brace (closing-brace noise and arbitrary prose are fine;
an unmatched opening brace in noise is what the counterexample exhibits),
and block segments are well-formed. -/
def Seg.ok : Seg → Prop
  | .noise t => ∀ c ∈ t.data, c ≠ lbrace
  | .block t => wellFormedBlock t = true

instance : DecidablePred Seg.ok := fun sg =>
  match sg with
  | .noise t => inferInstanceAs (Decidable (∀ c ∈ t.data, c ≠ lbrace))
  | .block t => inferInstanceAs (Decidable (wellFormedBlock t = true))

/-- The call a segment contributes, if any. -/
def Seg.call : Seg → Option ActionCall
  | .noise _ => none
  | .block t => some (blockCall t)

/-- Concatenate the segments into the raw response text. -/
def renderSegs : List Seg → String
  | [] => ""
  | sg :: rest => sg.text ++ renderSegs rest

/-- A message content emits no output: every parsed user_output call in it
carries a falsy message (so the wrapper's extraction collects nothing from
it). -/
def outputFree (content : String) : Prop :=
  ∀ call ∈ parseActionCalls content,
    jsEqString call.action "user_output" = true →
      ((call.parameters.getField "message").getD Json.null).truthy = false

instance : DecidablePred outputFree := fun content =>
  inferInstanceAs (Decidable (∀ call ∈ parseActionCalls content, _ → _))

/-- A well-formed demonstration block with flat parameters. -/
def demoBlockA : String :=
  "\x7b\"action\": \"get_weather\", \"parameters\": \x7b\"location\": \"Paris\"\x7d\x7d"

/-- A well-formed demonstration block whose parameters nest objects and an
array. -/
def demoBlockB : String :=
  "\x7b\"action\": \"plan\", \"parameters\": \x7b\"steps\": [1, 2], \"meta\": \x7b\"deep\": \x7b\"ok\": true\x7d\x7d\x7d\x7d"

/-- An interleaving of prose noise (including unmatched closing-brace noise)
with the two demonstration blocks. -/
def demoSegs : List Seg :=
  [.noise "Sure, let me look. ", .block demoBlockA,
   .noise " and also \x7d \x7d ", .block demoBlockB, .noise " done.\x7d"]

/-- Scenario provider: a weather action call in round one, a plain final
answer afterwards. -/
def weatherProvider : Nat → String
  | 0 => demoBlockA
  | _ => "All done."

/-- Scenario weather action that always succeeds. -/
def weatherAction : IAction :=
  ⟨"get_weather", "Get weather for a location",
   [⟨"location", "string", "City", true⟩],
   fun _ _ => .ok (.str "sunny")⟩

/-- Scenario action that fails on every attempt, with an attempt-dependent
error text. -/
def failingAction : IAction :=
  ⟨"flaky", "Always fails", [], fun _ n => .error ("boom " ++ toString n)⟩

/-- Scenario action that always succeeds. -/
def echoAction : IAction :=
  ⟨"echo", "Echo parameters", [], fun p _ => .ok p⟩

/-- Scenario provider that always answers text that looks like an action call
but parses to zero calls. -/
def malformedProvider : Nat → String :=
  fun _ => "I will call \"action\" with \"parameters\" right away"

/-- Scenario provider for the terminal-round claim: an echo call plus a
user_output call in the same round. -/
def terminalProvider : Nat → String
  | 0 => "\x7b\"action\": \"echo\", \"parameters\": \x7b\x7d\x7d and \x7b\"action\": \"user_output\", \"parameters\": \x7b\"message\": \"Hi!\"\x7d\x7d"
  | _ => "never reached"

/-- Scenario provider that performs an action in round one and then returns
blank responses, so the chat errors after work was done. -/
def failAfterWorkProvider : Nat → String
  | 0 => demoBlockA
  | _ => ""

end Chisato

namespace Chisato

theorem scanStep_skip (st : ScanState) (c : Char)
    (hst : st.inJson = false) (hc : c ≠ lbrace) : scanStep st c = st := by
  unfold scanStep
  rw [if_neg hc, hst]
  simp

theorem foldl_scan_noise (ns : List Char) (st : ScanState)
    (hst : st.inJson = false) (hn : ∀ c ∈ ns, c ≠ lbrace) :
    ns.foldl scanStep st = st := by
  induction ns with
  | nil => rfl
  | cons c cs ih =>
    rw [List.foldl_cons, scanStep_skip st c hst (hn c (by simp)), ih]
    exact fun c hc => hn c (by simp [hc])

theorem foldl_scan_capture (cs : List Char) :
    ∀ (st : ScanState) (d : Int), st.inJson = true → st.braceCount = d →
    0 < d → depthRun d cs = true →
    cs.foldl scanStep st =
      { inJson := false, braceCount := 0, currentJson := [],
        acc := st.acc ++ candidateCalls (String.mk (st.currentJson ++ cs)) } := by
  induction cs with
  | nil =>
    intro st d _ _ hpos hdepth
    simp [depthRun] at hdepth
    omega
  | cons c cs ih =>
    intro st d hin hbc hpos hdepth
    simp only [depthRun, Bool.and_eq_true, decide_eq_true_eq] at hdepth
    obtain ⟨-, hdepth⟩ := hdepth
    rw [List.foldl_cons]
    by_cases hcl : c = lbrace
    · have hstep : scanStep st c =
          { st with braceCount := st.braceCount + 1, currentJson := st.currentJson ++ [c] } := by
        unfold scanStep
        rw [if_pos hcl, hin]
        simp
      rw [hstep]
      have := ih { st with braceCount := st.braceCount + 1, currentJson := st.currentJson ++ [c] }
        (d + 1) hin (by simp [hbc]) (by omega)
        (by simpa [braceDelta, hcl] using hdepth)
      rw [this]
      simp [List.append_assoc]
    · by_cases hcr : c = rbrace
      · have hdelta : braceDelta c = -1 := by simp [braceDelta, hcl, hcr]; decide
        rw [hdelta] at hdepth
        by_cases hone : d = 1
        · -- the closing brace finishes the capture; the depth condition forces cs = []
          have hcs : cs = [] := by
            cases cs with
            | nil => rfl
            | cons x xs =>
              simp only [depthRun, Bool.and_eq_true, decide_eq_true_eq] at hdepth
              omega
          subst hcs
          have hstep : scanStep st c =
              { inJson := false, braceCount := 0, currentJson := [],
                acc := st.acc ++ candidateCalls (String.mk (st.currentJson ++ [c])) } := by
            unfold scanStep
            rw [if_neg hcl, hin]
            simp only [hcr, hbc, hone]
            norm_num
          rw [hstep]
          rfl
        · have hstep : scanStep st c =
              { st with braceCount := st.braceCount - 1, currentJson := st.currentJson ++ [c] } := by
            unfold scanStep
            rw [if_neg hcl, hin]
            simp only [hcr, hbc]
            have : ¬ (d - 1 = 0) := by omega
            simp [this]
          rw [hstep]
          have hposd : 0 < d - 1 := by
            cases cs with
            | nil =>
              simp [depthRun] at hdepth
              omega
            | cons x xs =>
              simp only [depthRun, Bool.and_eq_true, decide_eq_true_eq] at hdepth
              omega
          have := ih { st with braceCount := st.braceCount - 1, currentJson := st.currentJson ++ [c] }
            (d - 1) hin (by simp [hbc]) hposd hdepth
          rw [this]
          simp [List.append_assoc]
      · have hdelta : braceDelta c = 0 := by simp [braceDelta, hcl, hcr]
        rw [hdelta, add_zero] at hdepth
        have hstep : scanStep st c = { st with currentJson := st.currentJson ++ [c] } := by
          unfold scanStep
          rw [if_neg hcl, hin]
          simp [hcr]
        rw [hstep]
        have := ih { st with currentJson := st.currentJson ++ [c] } d hin (by simp [hbc]) hpos hdepth
        rw [this]
        simp [List.append_assoc]


theorem candidateCalls_wellFormed (b : String) (hb : wellFormedBlock b = true) :
    candidateCalls b = [blockCall b] := by
  unfold wellFormedBlock at hb
  simp only [Bool.and_eq_true] at hb
  obtain ⟨⟨⟨-, hact⟩, hpar⟩, hshape⟩ := hb
  unfold candidateCalls
  rw [hact, hpar]
  simp only [Bool.and_self, if_true]
  cases hj : jsonParse b with
  | none => rw [hj] at hshape; simp at hshape
  | some v =>
    rw [hj] at hshape
    dsimp only at hshape
    dsimp only
    cases hga : v.getField "action" with
    | none => rw [hga] at hshape; simp at hshape
    | some a =>
      rw [hga] at hshape
      cases hgp : v.getField "parameters" with
      | none => rw [hgp] at hshape; simp at hshape
      | some p =>
        rw [hgp] at hshape
        cases a with
        | str s =>
          cases p with
          | obj fields =>
            dsimp only at hshape
            dsimp only
            unfold blockCall
            simp [hj, hga, hgp, Json.truthy, hshape]
          | null => simp at hshape
          | bool b2 => simp at hshape
          | num l => simp at hshape
          | str t => simp at hshape
          | arr xs => simp at hshape
        | null => simp at hshape
        | bool b2 => simp at hshape
        | num l => simp at hshape
        | arr xs => simp at hshape
        | obj fs => simp at hshape

theorem scan_block (b : String) (st : ScanState) (hst : st.inJson = false)
    (hb : wellFormedBlock b = true) :
    b.data.foldl scanStep st =
      { inJson := false, braceCount := 0, currentJson := [],
        acc := st.acc ++ [blockCall b] } := by
  have hshape : (match b.data with
      | c :: rest => c = lbrace && depthRun 1 rest
      | [] => false) = true := by
    unfold wellFormedBlock at hb
    simp only [Bool.and_eq_true] at hb
    exact hb.1.1.1
  cases hdata : b.data with
  | nil => rw [hdata] at hshape; simp at hshape
  | cons c rest =>
    rw [hdata] at hshape
    dsimp only at hshape
    simp only [Bool.and_eq_true, decide_eq_true_eq] at hshape
    obtain ⟨hc, hdepth⟩ := hshape
    subst hc
    rw [List.foldl_cons]
    have hstep : scanStep st lbrace =
        { st with inJson := true, braceCount := 1, currentJson := [lbrace] } := by
      unfold scanStep
      rw [if_pos rfl, hst]
      simp
    rw [hstep]
    rw [foldl_scan_capture rest _ 1 rfl rfl (by omega) hdepth]
    have hmk : String.mk ([lbrace] ++ rest) = b := by
      rw [List.singleton_append, ← hdata]
    rw [show ((⟨st.inJson, st.braceCount, [lbrace], st.acc⟩ : ScanState).currentJson) = [lbrace] from rfl]
    rw [hmk]
    rw [candidateCalls_wellFormed b hb]

theorem scan_segs (segs : List Seg) :
    ∀ st : ScanState, st.inJson = false → (∀ sg ∈ segs, sg.ok) →
    ∃ st', (renderSegs segs).data.foldl scanStep st = st' ∧
      st'.inJson = false ∧ st'.acc = st.acc ++ segs.filterMap Seg.call := by
  induction segs with
  | nil =>
    intro st hst _
    exact ⟨st, rfl, hst, by simp [renderSegs]⟩
  | cons sg rest ih =>
    intro st hst hok
    have hdata : (renderSegs (sg :: rest)).data
        = sg.text.data ++ (renderSegs rest).data := by
      show (sg.text ++ renderSegs rest).data = _
      exact String.data_append sg.text (renderSegs rest)
    rw [hdata, List.foldl_append]
    cases sg with
    | noise t =>
      have hnoise : t.data.foldl scanStep st = st :=
        foldl_scan_noise t.data st hst (hok (.noise t) (by simp))
      rw [show Seg.text (Seg.noise t) = t from rfl, hnoise]
      obtain ⟨st', h1, h2, h3⟩ := ih st hst (fun sg hsg => hok sg (by simp [hsg]))
      exact ⟨st', h1, h2, by simpa [Seg.call] using h3⟩
    | block b =>
      have hb : wellFormedBlock b = true := hok (.block b) (by simp)
      rw [show Seg.text (Seg.block b) = b from rfl,
        scan_block b st hst hb]
      obtain ⟨st', h1, h2, h3⟩ :=
        ih { inJson := false, braceCount := 0, currentJson := [],
             acc := st.acc ++ [blockCall b] } rfl (fun sg hsg => hok sg (by simp [hsg]))
      refine ⟨st', h1, h2, ?_⟩
      rw [h3]
      simp [Seg.call]


/-- C1 (amended): for every response assembled from well-formed action blocks
(nested parameter objects and arrays included) interleaved with noise that
contains no opening brace (arbitrary prose and unmatched closing-brace noise
are fine), parseActionCalls returns exactly the blocks' calls in left-to-right
order; in particular, for noise-only and empty inputs it returns the empty
sequence. -/
theorem parseActionCalls_segments (segs : List Seg) (h : ∀ sg ∈ segs, sg.ok) :
    parseActionCalls (renderSegs segs) = segs.filterMap Seg.call := by
  obtain ⟨st', h1, -, h3⟩ := scan_segs segs initScan rfl h
  unfold parseActionCalls
  rw [h1, h3]
  rfl

set_option maxRecDepth 4000 in
/-- Witness for C1: two well-formed blocks, the second with nested parameter
objects and an array, interleaved with prose and unmatched closing-brace
noise, are extracted exactly and in order. -/
theorem parseActionCalls_segments_witness :
    parseActionCalls (renderSegs demoSegs) = demoSegs.filterMap Seg.call :=
  parseActionCalls_segments demoSegs (by decide)

set_option maxRecDepth 4000 in
/-- C1 counterexample: an unmatched opening brace in the noise before a
well-formed action block makes the scanner swallow the block, so the claim as
stated (any unbalanced brace noise elsewhere is harmless) is false: this input
contains one well-formed block yet the parser returns zero calls. -/
theorem parseActionCalls_noise_counterexample :
    wellFormedBlock demoBlockA = true ∧
    parseActionCalls (String.mk [lbrace] ++ " " ++ demoBlockA) = [] :=
  ⟨by decide, rfl⟩


theorem hasSubstr_mem (pat : List Char) :
    ∀ s : List Char, hasSubstr s pat = true → ∀ c ∈ pat, c ∈ s := by
  intro s
  induction s with
  | nil =>
    intro h c hc
    unfold hasSubstr at h
    cases pat with
    | nil => simp at hc
    | cons p ps => simp [List.isPrefixOf] at h
  | cons x xs ih =>
    intro h c hc
    unfold hasSubstr at h
    by_cases hp : pat.isPrefixOf (x :: xs) = true
    · have : pat <+: x :: xs := by
        rw [← List.isPrefixOf_iff_prefix]
        exact hp
      exact this.subset hc
    · rw [if_neg hp] at h
      simp only at h
      exact List.mem_cons_of_mem x (ih h c hc)

theorem looksLike_not_blank (r : String) (h : looksLikeAction r = true) :
    isBlank r = false := by
  unfold looksLikeAction at h
  simp only [Bool.and_eq_true] at h
  have hq : '"' ∈ r.data := by
    have := hasSubstr_mem actionKey.data r.data h.1
    exact this '"' (by decide)
  unfold isBlank
  rw [List.all_eq_false]
  exact ⟨'"', hq, by decide⟩

theorem validateResponse_of_bad (r : String)
    (hlook : looksLikeAction r = true)
    (hparse : (parseActionCalls r).isEmpty = true) :
    validateResponse r = some "Response appears to contain malformed action JSON" := by
  unfold validateResponse
  rw [looksLike_not_blank r hlook]
  simp [hlook, hparse]

theorem jsOrNat_pos (o : Option Nat) (d : Nat) (hd : 0 < d) : 0 < jsOrNat o d := by
  unfold jsOrNat
  cases o with
  | none => exact hd
  | some n =>
    by_cases h : n = 0
    · simp [h, hd]
    · simp [h]
      omega

theorem retryLoop_ok (provider : Nat → String) (mr : Nat) (rem attempt c : Nat)
    (hv : validateResponse (provider c) = none) (hrem : 0 < rem) :
    retryLoop provider mr rem attempt c = (.ok (provider c), c + 1, []) := by
  cases rem with
  | zero => omega
  | succ n =>
    unfold retryLoop
    dsimp only
    rw [hv]

theorem retryLoop_allBad (provider : Nat → String) (mr : Nat)
    (hbad : ∀ n, looksLikeAction (provider n) = true
      ∧ (parseActionCalls (provider n)).isEmpty = true) :
    ∀ rem attempt c, attempt + rem = mr + 1 → 0 < rem →
    retryLoop provider mr rem attempt c =
      (.error (invalidOutputMsg mr "Response appears to contain malformed action JSON"),
       c + rem,
       (List.range rem).map (fun i =>
         .invalidOutput (attempt + i) "Response appears to contain malformed action JSON"
           (provider (c + i)))) := by
  intro rem
  induction rem with
  | zero => omega
  | succ n ih =>
    intro attempt c hsum _
    unfold retryLoop
    dsimp only
    rw [validateResponse_of_bad (provider c) (hbad c).1 (hbad c).2]
    dsimp only
    by_cases hlast : attempt = mr
    · have hn : n = 0 := by omega
      subst hn
      rw [if_pos hlast, hlast]
      simp [List.range_succ]
    · rw [if_neg hlast]
      have hrec := ih (attempt + 1) (c + 1) (by omega) (by omega)
      rw [hrec]
      have hlist : (List.range (n + 1)).map
            (fun i => Event.invalidOutput (attempt + i)
              "Response appears to contain malformed action JSON" (provider (c + i)))
          = Event.invalidOutput attempt "Response appears to contain malformed action JSON"
              (provider c)
            :: (List.range n).map (fun i => Event.invalidOutput (attempt + 1 + i)
              "Response appears to contain malformed action JSON" (provider (c + 1 + i))) := by
        rw [List.range_succ_eq_map, List.map_cons, List.map_map]
        simp only [Nat.add_zero]
        refine congrArg _ ?_
        apply List.map_congr_left
        intro i _
        have h1 : attempt + 1 + i = attempt + (i + 1) := by omega
        have h2 : c + 1 + i = c + (i + 1) := by omega
        simp [Function.comp, h1, h2]
      rw [hlist]
      have hc : c + 1 + n = c + (n + 1) := by omega
      simp [hc]


/-- C4: when every provider response textually contains both the quoted
action key and the quoted parameters key yet parses to zero calls, chat
raises the fatal invalid-output error after exactly maxRetries attempts
(maxRetries provider calls, default 3), and the onInvalidOutput observer
fires exactly once per attempt, with the attempt number, the failure reason
and the raw output. -/
theorem chat_allBad (provider : Nat → String) (registry : List IAction)
    (opts : AgentOptions) (h0 : List Message) (umsg : String)
    (hbad : ∀ n, looksLikeAction (provider n) = true
      ∧ (parseActionCalls (provider n)).isEmpty = true)
    (hpos : 0 < opts.maxIterations) :
    (chat provider registry opts h0 umsg).result
        = .error (invalidOutputMsg (jsOrNat opts.maxRetries 3)
            "Response appears to contain malformed action JSON")
      ∧ (chat provider registry opts h0 umsg).events
        = (List.range (jsOrNat opts.maxRetries 3)).map
            (fun i => .invalidOutput (i + 1)
              "Response appears to contain malformed action JSON" (provider i))
      ∧ (chat provider registry opts h0 umsg).calls = jsOrNat opts.maxRetries 3 := by
  obtain ⟨f, hf⟩ : ∃ f, opts.maxIterations = f + 1 := ⟨opts.maxIterations - 1, by omega⟩
  have hmrpos : 0 < jsOrNat opts.maxRetries 3 := jsOrNat_pos _ _ (by omega)
  have hloop := retryLoop_allBad provider (jsOrNat opts.maxRetries 3) hbad
    (jsOrNat opts.maxRetries 3) 1 0 (by omega) hmrpos
  have hevents : (List.range (jsOrNat opts.maxRetries 3)).map
        (fun i => Event.invalidOutput (1 + i)
          "Response appears to contain malformed action JSON" (provider (0 + i)))
      = (List.range (jsOrNat opts.maxRetries 3)).map
        (fun i => Event.invalidOutput (i + 1)
          "Response appears to contain malformed action JSON" (provider i)) := by
    apply List.map_congr_left
    intro i _
    have h1 : 1 + i = i + 1 := by omega
    simp [h1]
  unfold chat
  rw [hf]
  unfold chatLoop
  dsimp only
  rw [hloop]
  dsimp only
  rw [hevents]
  exact ⟨rfl, by simp, by omega⟩

set_option maxRecDepth 4000 in
/-- Witness for C4: a provider that always answers prose mentioning both keys
but containing no parsable block makes chat fail after the default three
attempts, with three invalid-output callbacks. -/
theorem chat_allBad_witness :
    (chat malformedProvider [] ⟨10, none, none⟩ [] "go").result
        = .error (invalidOutputMsg (jsOrNat (none : Option Nat) 3)
            "Response appears to contain malformed action JSON")
      ∧ (chat malformedProvider [] ⟨10, none, none⟩ [] "go").events
        = (List.range (jsOrNat (none : Option Nat) 3)).map
            (fun i => .invalidOutput (i + 1)
              "Response appears to contain malformed action JSON" (malformedProvider i))
      ∧ (chat malformedProvider [] ⟨10, none, none⟩ [] "go").calls
        = jsOrNat (none : Option Nat) 3 :=
  chat_allBad malformedProvider [] ⟨10, none, none⟩ [] "go"
    (fun _ => ⟨rfl, rfl⟩) (by decide)


theorem chatLoop_progress (provider : Nat → String) (registry : List IAction)
    (mr mar : Nat) (hmr : 0 < mr) :
    ∀ (fuel k : Nat) (st : LoopState),
    (∀ i, i ≤ k → validateResponse (provider (st.calls + i)) = none) →
    (∀ i, i < k → (parseActionCalls (provider (st.calls + i))).isEmpty = false
      ∧ (parseActionCalls (provider (st.calls + i))).any
          (fun call => jsEqString call.action "user_output") = false) →
    (parseActionCalls (provider (st.calls + k))).isEmpty = true →
    (k < fuel →
      ∃ st', chatLoop provider registry mr mar fuel st
          = (st', .finished (provider (st.calls + k)))
        ∧ st'.iterations = st.iterations + k + 1)
    ∧ (fuel ≤ k →
      ∃ st', chatLoop provider registry mr mar fuel st = (st', .exhausted)) := by
  intro fuel
  induction fuel with
  | zero =>
    intro k st _ _ _
    exact ⟨fun h => absurd h (by omega), fun _ => ⟨st, rfl⟩⟩
  | succ f ih =>
    intro k st hv hmid hfin
    unfold chatLoop
    dsimp only
    rw [retryLoop_ok provider mr mr 1 st.calls
      (by have := hv 0 (by omega); simpa using this) hmr]
    dsimp only
    cases k with
    | zero =>
      have hfin0 : (parseActionCalls (provider st.calls)).isEmpty = true := by
        simpa using hfin
      rw [if_pos hfin0]
      refine ⟨fun _ => ⟨_, rfl, ?_⟩, fun h => absurd h (by omega)⟩
      simp
    | succ k' =>
      have hmid0 := hmid 0 (by omega)
      rw [show st.calls + 0 = st.calls from by omega] at hmid0
      rw [if_neg (by simp [hmid0.1])]
      rw [if_neg (by simp [hmid0.2])]
      have hv' : ∀ i, i ≤ k' → validateResponse (provider (st.calls + 1 + i)) = none := by
        intro i hi
        have h := hv (i + 1) (by omega)
        rw [show st.calls + (i + 1) = st.calls + 1 + i from by omega] at h
        exact h
      have hmid' : ∀ i, i < k' →
          (parseActionCalls (provider (st.calls + 1 + i))).isEmpty = false
          ∧ (parseActionCalls (provider (st.calls + 1 + i))).any
              (fun call => jsEqString call.action "user_output") = false := by
        intro i hi
        have h := hmid (i + 1) (by omega)
        rw [show st.calls + (i + 1) = st.calls + 1 + i from by omega] at h
        exact h
      have hfin' : (parseActionCalls (provider (st.calls + 1 + k'))).isEmpty = true := by
        rw [show st.calls + 1 + k' = st.calls + (k' + 1) from by omega]
        exact hfin
      have hres := ih k'
        { history := st.history ++ [{ role := Role.assistant, content := provider st.calls }]
            ++ [{ role := Role.user,
                  content := formatActionResults
                    (executeActions registry mar (parseActionCalls (provider st.calls))).1 }],
          events := st.events ++ []
            ++ (executeActions registry mar (parseActionCalls (provider st.calls))).2,
          calls := st.calls + 1, iterations := st.iterations + 1 }
        hv' hmid' hfin'
      constructor
      · intro hlt
        obtain ⟨st', heq, hit⟩ := hres.1 (by omega)
        refine ⟨st', ?_, ?_⟩
        · rw [show st.calls + (k' + 1) = st.calls + 1 + k' from by omega]
          exact heq
        · rw [hit]
          show st.iterations + 1 + k' + 1 = st.iterations + (k' + 1) + 1
          omega
      · intro hge
        obtain ⟨st', heq⟩ := hres.2 (by omega)
        exact ⟨st', heq⟩


/-- C2 (amended): for a provider whose responses are all accepted first time,
with k rounds of non-terminal action calls followed by an action-free final
answer in round k + 1, chat returns that final answer exactly when
k + 1 < maxIterations, and raises the max-iterations error when k + 1 equals
or exceeds maxIterations — that is, a final answer produced in the
maxIterations-th round is also rejected, not only answers needing more
rounds. -/
theorem chat_iteration_boundary (provider : Nat → String) (registry : List IAction)
    (opts : AgentOptions) (h0 : List Message) (umsg : String) (k : Nat)
    (hv : ∀ i, i ≤ k → validateResponse (provider i) = none)
    (hmid : ∀ i, i < k → (parseActionCalls (provider i)).isEmpty = false
      ∧ (parseActionCalls (provider i)).any
          (fun call => jsEqString call.action "user_output") = false)
    (hfin : (parseActionCalls (provider k)).isEmpty = true) :
    (chat provider registry opts h0 umsg).result =
      if k + 1 < opts.maxIterations then .ok (provider k)
      else .error (maxIterMsg opts.maxIterations) := by
  have hmr : 0 < jsOrNat opts.maxRetries 3 := jsOrNat_pos _ _ (by omega)
  have hprog := chatLoop_progress provider registry (jsOrNat opts.maxRetries 3)
    (jsOrNat opts.maxActionRetries 2) hmr opts.maxIterations k
    ⟨h0 ++ [{ role := Role.user, content := umsg }], [], 0, 0⟩
    (fun i hi => by
      show validateResponse (provider (0 + i)) = none
      rw [Nat.zero_add]
      exact hv i hi)
    (fun i hi => by
      show (parseActionCalls (provider (0 + i))).isEmpty = false ∧ _
      rw [Nat.zero_add]
      exact hmid i hi)
    (by
      show (parseActionCalls (provider (0 + k))).isEmpty = true
      rw [Nat.zero_add]
      exact hfin)
  unfold chat
  dsimp only
  by_cases hk : k < opts.maxIterations
  · obtain ⟨st', heq, hit⟩ := hprog.1 hk
    rw [heq]
    dsimp only
    rw [hit]
    by_cases hk2 : k + 1 < opts.maxIterations
    · rw [if_neg (by dsimp only; omega), if_pos hk2]
      dsimp only
      rw [Nat.zero_add]
    · rw [if_pos (by dsimp only; omega), if_neg hk2]
  · obtain ⟨st', heq⟩ := hprog.2 (by omega)
    rw [heq]
    dsimp only
    rw [if_neg (by omega)]

/-- C2 counterexample: with maxIterations configured to 1, the very first
response "done" is an action-free final answer obtained within one round —
within the ceiling — yet chat raises the max-iterations error instead of
returning it. -/
theorem chat_iteration_counterexample :
    (parseActionCalls "done").isEmpty = true ∧
    (chat (fun _ => "done") [] ⟨1, none, none⟩ [] "hi").result
      = .error (maxIterMsg 1) :=
  ⟨rfl, rfl⟩

/-- Witness for C2: an action-free final answer in round one with
maxIterations 3 is returned (here 0 + 1 < 3). -/
theorem chat_iteration_boundary_witness :
    (chat (fun _ => "All done.") [] ⟨3, none, none⟩ [] "hi").result =
      if 0 + 1 < (3 : Nat) then .ok ((fun _ => "All done.") 0)
      else .error (maxIterMsg 3) :=
  chat_iteration_boundary (fun _ => "All done.") [] ⟨3, none, none⟩ [] "hi" 0
    (fun _ _ => rfl) (fun _ hi => absurd hi (by omega)) rfl


/-- C6 (amended): when the first accepted response parses to zero action
calls, chat returns it verbatim and the transcript grows by exactly the new
user message and one assistant message — provided maxIterations is at least 2
(the default 10 qualifies); with maxIterations = 1 the post-loop bound check
rejects even this immediate final answer (see the counterexample). -/
theorem chat_first_response_final (provider : Nat → String) (registry : List IAction)
    (opts : AgentOptions) (h0 : List Message) (umsg : String) (r : String)
    (c1 : Nat) (evs : List Event)
    (hacc : retryLoop provider (jsOrNat opts.maxRetries 3) (jsOrNat opts.maxRetries 3) 1 0
      = (.ok r, c1, evs))
    (hparse : (parseActionCalls r).isEmpty = true)
    (hiter : 2 ≤ opts.maxIterations) :
    (chat provider registry opts h0 umsg).result = .ok r ∧
    (chat provider registry opts h0 umsg).history
      = h0 ++ [{ role := Role.user, content := umsg }, { role := Role.assistant, content := r }] := by
  obtain ⟨f, hf⟩ : ∃ f, opts.maxIterations = f + 1 := ⟨opts.maxIterations - 1, by omega⟩
  unfold chat
  dsimp only
  rw [hf]
  unfold chatLoop
  dsimp only
  rw [hacc]
  dsimp only
  rw [if_pos hparse]
  dsimp only
  rw [if_neg (by omega)]
  refine ⟨rfl, ?_⟩
  dsimp only
  simp

/-- C6 counterexample: with maxIterations = 1, an action-free first response
still grows the transcript by exactly two messages, but chat raises the
max-iterations error instead of returning the response verbatim. -/
theorem chat_first_response_counterexample :
    (parseActionCalls "Hello!").isEmpty = true ∧
    (chat (fun _ => "Hello!") [] ⟨1, none, none⟩ [] "hey").result = .error (maxIterMsg 1) ∧
    (chat (fun _ => "Hello!") [] ⟨1, none, none⟩ [] "hey").history
      = [{ role := Role.user, content := "hey" }, { role := Role.assistant, content := "Hello!" }] :=
  ⟨rfl, rfl, rfl⟩

/-- Witness for C6: an action-free first answer under the default-like
configuration is returned verbatim with exactly two new messages. -/
theorem chat_first_response_final_witness :
    (chat (fun _ => "Sure thing.") [] ⟨10, none, none⟩ [] "hey").result = .ok "Sure thing." ∧
    (chat (fun _ => "Sure thing.") [] ⟨10, none, none⟩ [] "hey").history
      = [] ++ [{ role := Role.user, content := "hey" },
               { role := Role.assistant, content := "Sure thing." }] :=
  chat_first_response_final (fun _ => "Sure thing.") [] ⟨10, none, none⟩ [] "hey"
    "Sure thing." 1 [] rfl rfl (by decide)

theorem attemptLoop_length (action : IAction) (key params : Json) (mar : Nat) :
    ∀ rem attempt, attempt + rem = mar + 1 → 0 < rem →
    (attemptLoop action key params mar rem attempt).1.length = 1 := by
  intro rem
  induction rem with
  | zero => omega
  | succ n ih =>
    intro attempt hsum _
    unfold attemptLoop
    cases hex : action.execute params attempt with
    | ok result => rfl
    | error err =>
      dsimp only
      by_cases hlast : attempt = mar
      · rw [if_pos hlast]
        rfl
      · rw [if_neg hlast]
        exact ih (attempt + 1) (by omega) (by omega)

theorem executeActions_length (registry : List IAction) (mar : Nat) (hmar : 0 < mar) :
    ∀ calls : List ActionCall,
    (executeActions registry mar calls).1.length = calls.length := by
  intro calls
  induction calls with
  | nil => rfl
  | cons call rest ih =>
    unfold executeActions
    dsimp only
    cases hga : ActionRegistry.getActionByKey registry call.action with
    | none =>
      dsimp only
      simp [ih]
    | some action =>
      dsimp only
      simp [List.length_append, ih,
        attemptLoop_length action call.action call.parameters mar mar 1 (by omega) hmar]
      omega

/-- C3: in any round whose accepted response parses to calls that include a
user_output call (alone or alongside others), the loop dispatches every
parsed call of the round (one dispatch result per call), terminates with that
round's response recorded as the final response, and makes no further
provider call in the invocation (the call counter stays at the value the
round's validation left it). -/
theorem chatLoop_terminal_round (provider : Nat → String) (registry : List IAction)
    (mr mar fuel : Nat) (st : LoopState) (r : String) (c1 : Nat) (evs : List Event)
    (hfuel : 0 < fuel) (hmar : 0 < mar)
    (hacc : retryLoop provider mr mr 1 st.calls = (.ok r, c1, evs))
    (hterm : (parseActionCalls r).any (fun call => jsEqString call.action "user_output") = true) :
    chatLoop provider registry mr mar fuel st =
      ({ history := st.history ++ [{ role := Role.assistant, content := r }],
         events := st.events ++ evs ++ (executeActions registry mar (parseActionCalls r)).2,
         calls := c1,
         iterations := st.iterations + 1 }, .finished r) ∧
    (executeActions registry mar (parseActionCalls r)).1.length
      = (parseActionCalls r).length := by
  obtain ⟨f, hf⟩ : ∃ f, fuel = f + 1 := ⟨fuel - 1, by omega⟩
  subst hf
  have hne : (parseActionCalls r).isEmpty = false := by
    cases hp : parseActionCalls r with
    | nil => rw [hp] at hterm; simp at hterm
    | cons a l => rfl
  constructor
  · unfold chatLoop
    dsimp only
    rw [hacc]
    dsimp only
    rw [if_neg (by simp [hne])]
    rw [if_pos hterm]
  · exact executeActions_length registry mar hmar (parseActionCalls r)

set_option maxRecDepth 8000 in
/-- Witness for C3: a round answering with an echo call followed by a
user_output call dispatches both and finishes with one provider call made. -/
theorem chatLoop_terminal_round_witness :
    chatLoop terminalProvider [echoAction] 3 2 10 ⟨[], [], 0, 0⟩ =
      ({ history := [] ++ [{ role := Role.assistant, content := terminalProvider 0 }],
         events := [] ++ [] ++ (executeActions [echoAction] 2 (parseActionCalls (terminalProvider 0))).2,
         calls := 1,
         iterations := 0 + 1 }, .finished (terminalProvider 0)) ∧
    (executeActions [echoAction] 2 (parseActionCalls (terminalProvider 0))).1.length
      = (parseActionCalls (terminalProvider 0)).length :=
  chatLoop_terminal_round terminalProvider [echoAction] 3 2 10 ⟨[], [], 0, 0⟩
    (terminalProvider 0) 1 [] (by omega) (by omega) rfl rfl


theorem attemptLoop_allFail (action : IAction) (key params : Json) (mar : Nat)
    (f : Json → Nat → String)
    (hfail : ∀ p n, action.execute p n = .error (f p n)) :
    ∀ rem attempt, attempt + rem = mar + 1 → 0 < rem →
    attemptLoop action key params mar rem attempt =
      ([⟨key, false, none,
          some ("Action failed after " ++ toString mar ++ " attempts: " ++ f params mar)⟩],
       (List.range (rem - 1)).map
         (fun i => .actionRetry key (attempt + i) (f params (attempt + i)))
         ++ [.actionMaxRetries key (f params mar)]) := by
  intro rem
  induction rem with
  | zero => omega
  | succ n ih =>
    intro attempt hsum _
    unfold attemptLoop
    rw [hfail params attempt]
    dsimp only
    by_cases hlast : attempt = mar
    · have hn : n = 0 := by omega
      subst hn
      rw [if_pos hlast, hlast]
      simp
    · rw [if_neg hlast]
      rw [ih (attempt + 1) (by omega) (by omega)]
      have hlist : (List.range (n + 1 - 1)).map
            (fun i => Event.actionRetry key (attempt + i) (f params (attempt + i)))
          = Event.actionRetry key attempt (f params attempt)
            :: (List.range (n - 1)).map
              (fun i => Event.actionRetry key (attempt + 1 + i) (f params (attempt + 1 + i))) := by
        have hn1 : n + 1 - 1 = (n - 1) + 1 := by omega
        rw [hn1, List.range_succ_eq_map, List.map_cons, List.map_map]
        simp only [Nat.add_zero]
        refine congrArg _ ?_
        apply List.map_congr_left
        intro i _
        have h1 : attempt + 1 + i = attempt + (i + 1) := by omega
        simp [Function.comp, h1]
      rw [hlist]
      simp

/-- C5: dispatching a call to a registered action whose execute fails on
every attempt records exactly one failed result whose error text names the
attempt count maxActionRetries (default 2), fires the onActionRetry observer
exactly maxActionRetries - 1 times and the onActionMaxRetries observer
exactly once, does not abort (dispatch is total), and continues with the
remaining sibling calls of the round, whose results and events follow. -/
theorem executeActions_exhaustion (registry : List IAction) (mar : Nat)
    (action : IAction) (params : Json) (restCalls : List ActionCall)
    (f : Json → Nat → String)
    (hreg : ActionRegistry.getActionByKey registry (.str action.name) = some action)
    (hfail : ∀ p n, action.execute p n = .error (f p n))
    (hmar : 0 < mar) :
    executeActions registry mar (⟨.str action.name, params⟩ :: restCalls) =
      (⟨.str action.name, false, none,
          some ("Action failed after " ++ toString mar ++ " attempts: " ++ f params mar)⟩
         :: (executeActions registry mar restCalls).1,
       ((List.range (mar - 1)).map
           (fun i => .actionRetry (.str action.name) (i + 1) (f params (i + 1)))
          ++ [.actionMaxRetries (.str action.name) (f params mar)])
         ++ (executeActions registry mar restCalls).2) := by
  unfold executeActions
  dsimp only
  rw [hreg]
  dsimp only
  rw [attemptLoop_allFail action (.str action.name) params mar f hfail mar 1 (by omega) hmar]
  have hlist : (List.range (mar - 1)).map
        (fun i => Event.actionRetry (Json.str action.name) (1 + i) (f params (1 + i)))
      = (List.range (mar - 1)).map
        (fun i => Event.actionRetry (Json.str action.name) (i + 1) (f params (i + 1))) := by
    apply List.map_congr_left
    intro i _
    have h1 : 1 + i = i + 1 := by omega
    rw [h1]
  rw [hlist]
  simp
  constructor <;> rw [executeActions.eq_def]

/-- Witness for C5: the always-failing action exhausts its two attempts, one
retry callback and one exhaustion callback fire, and the sibling echo call is
still dispatched. -/
theorem executeActions_exhaustion_witness :
    executeActions [failingAction, echoAction] 2
        (⟨.str failingAction.name, .obj []⟩ :: [⟨.str "echo", .obj []⟩]) =
      (⟨.str failingAction.name, false, none,
          some ("Action failed after " ++ toString 2 ++ " attempts: " ++ "boom 2")⟩
         :: (executeActions [failingAction, echoAction] 2 [⟨.str "echo", .obj []⟩]).1,
       ((List.range (2 - 1)).map
           (fun i => .actionRetry (.str failingAction.name) (i + 1) ("boom " ++ toString (i + 1)))
          ++ [.actionMaxRetries (.str failingAction.name) ("boom 2")])
         ++ (executeActions [failingAction, echoAction] 2 [⟨.str "echo", .obj []⟩]).2) :=
  executeActions_exhaustion [failingAction, echoAction] 2 failingAction (.obj [])
    [⟨.str "echo", .obj []⟩] (fun _ n => "boom " ++ toString n) rfl
    (fun _ _ => rfl) (by omega)

theorem getAction_mem_nodup (r : List IAction) (a : IAction)
    (hmem : a ∈ r) (hnodup : (r.map IAction.name).Nodup) :
    ActionRegistry.getAction r a.name = some a := by
  induction r with
  | nil => simp at hmem
  | cons x rest ih =>
    simp only [List.map_cons, List.nodup_cons] at hnodup
    unfold ActionRegistry.getAction
    rw [List.find?_cons]
    by_cases hx : x.name = a.name
    · have hax : a = x := by
        rcases List.mem_cons.mp hmem with h | h
        · exact h
        · exfalso
          apply hnodup.1
          rw [hx]
          exact List.mem_map_of_mem IAction.name h
      have hdx : (decide (x.name = a.name)) = true := by simp [hx]
      rw [hdx, hax]
    · have hdx : (decide (x.name = a.name)) = false := by simp [hx]
      rw [hdx]
      have hmem2 : a ∈ rest := by
        rcases List.mem_cons.mp hmem with h | h
        · exact absurd (congrArg IAction.name h) (fun hh => hx hh.symm)
        · exact h
      exact ih hmem2 hnodup.2


/-- C7: registering an action whose name collides with an already-registered
one fails with the duplicate-name error (no silent overwrite), and the
registry value is untouched by the failed call: looking the name up still
returns the first-registered action. -/
theorem registerAction_duplicate (r : List IAction) (a b : IAction)
    (hmem : a ∈ r) (hname : b.name = a.name)
    (hnodup : (r.map IAction.name).Nodup) :
    ActionRegistry.registerAction r b = .error (ActionRegistry.dupMsg b.name) ∧
    ActionRegistry.getAction r b.name = some a := by
  constructor
  · unfold ActionRegistry.registerAction
    have hany : r.any (fun x => x.name = b.name) = true :=
      List.any_eq_true.mpr ⟨a, hmem, by simp [hname]⟩
    rw [if_pos hany]
  · rw [hname]
    exact getAction_mem_nodup r a hmem hnodup

/-- Witness for C7: re-registering the weather action's name fails and the
lookup still answers the original action. -/
theorem registerAction_duplicate_witness :
    ActionRegistry.registerAction [weatherAction, echoAction]
        ⟨"get_weather", "duplicate", [], fun _ _ => .ok .null⟩
      = .error (ActionRegistry.dupMsg "get_weather") ∧
    ActionRegistry.getAction [weatherAction, echoAction] "get_weather" = some weatherAction :=
  registerAction_duplicate [weatherAction, echoAction] weatherAction
    ⟨"get_weather", "duplicate", [], fun _ _ => .ok .null⟩
    (List.mem_cons_self weatherAction [echoAction]) rfl (by decide)

/-- C8: AgentLoop.run always resolves with a structured result — it is a
total function of its inputs, its success flag is true exactly when the
underlying Agent.chat returned normally, and its error field carries the chat
error text exactly when chat raised. -/
theorem run_resolves (provider : Nat → String) (registry : List IAction)
    (opts : AgentOptions) (h0 : List Message) (umsg : String) :
    (run provider registry opts h0 umsg).result.success
        = (match (chat provider registry opts h0 umsg).result with
           | .ok _ => true
           | .error _ => false)
      ∧ (run provider registry opts h0 umsg).result.error
        = (match (chat provider registry opts h0 umsg).result with
           | .ok _ => none
           | .error e => some e) := by
  unfold run
  dsimp only
  cases hchat : (chat provider registry opts h0 umsg).result with
  | error msg => exact ⟨rfl, rfl⟩
  | ok r =>
    dsimp only
    constructor
    · split <;> rfl
    · split <;> rfl

/-- C10: whenever the underlying chat raises, run reports the failure with
both accumulators empty: outputs and actionsExecuted are cleared on entry and
populated only after a successful chat, so the failure result reports no
output and no executed action even if actions actually ran before the
error. -/
theorem run_failure_empty (provider : Nat → String) (registry : List IAction)
    (opts : AgentOptions) (h0 : List Message) (umsg : String) (e : String)
    (herr : (chat provider registry opts h0 umsg).result = .error e) :
    (run provider registry opts h0 umsg).result.outputs = []
      ∧ (run provider registry opts h0 umsg).result.actionsExecuted = []
      ∧ (run provider registry opts h0 umsg).result.success = false
      ∧ (run provider registry opts h0 umsg).result.error = some e := by
  unfold run
  dsimp only
  rw [herr]
  exact ⟨rfl, rfl, rfl, rfl⟩

set_option maxRecDepth 20000 in
/-- Witness for C10: the provider performs the weather action in round one
and then returns blank responses, so chat fails in round two after the three
blank-response retries; run reports the failure with empty outputs and
actionsExecuted even though an action ran. -/
theorem run_failure_empty_witness :
    (run failAfterWorkProvider [weatherAction] ⟨10, none, none⟩ [] "weather?").result.outputs = []
      ∧ (run failAfterWorkProvider [weatherAction] ⟨10, none, none⟩ [] "weather?").result.actionsExecuted = []
      ∧ (run failAfterWorkProvider [weatherAction] ⟨10, none, none⟩ [] "weather?").result.success = false
      ∧ (run failAfterWorkProvider [weatherAction] ⟨10, none, none⟩ [] "weather?").result.error
        = some (invalidOutputMsg 3 "LLM returned empty response") :=
  run_failure_empty failAfterWorkProvider [weatherAction] ⟨10, none, none⟩ [] "weather?"
    (invalidOutputMsg 3 "LLM returned empty response") rfl


theorem extractCalls_skip (calls : List ActionCall) :
    ∀ outs evs,
    (∀ call ∈ calls, jsEqString call.action "user_output" = true →
      ((call.parameters.getField "message").getD Json.null).truthy = false) →
    extractCalls outs evs calls = (outs, evs) := by
  induction calls with
  | nil => intro outs evs _; rfl
  | cons call rest ih =>
    intro outs evs h
    unfold extractCalls
    dsimp only
    have hcond : ¬ ((jsEqString call.action "user_output"
        && ((call.parameters.getField "message").getD Json.null).truthy) = true) := by
      intro hc
      rw [Bool.and_eq_true] at hc
      have := h call (List.mem_cons_self call rest) hc.1
      rw [this] at hc
      exact absurd hc.2 (by simp)
    rw [if_neg hcond]
    exact ih outs evs (fun c hcm hcj => h c (List.mem_cons_of_mem call hcm) hcj)

theorem extractUserOutputs_empty (history : List Message) (r : String)
    (hh : ∀ m ∈ history, m.role = .assistant → outputFree m.content)
    (hr : outputFree r) :
    extractUserOutputs history r = ([], []) := by
  unfold extractUserOutputs
  have hfold : ∀ (hs : List Message),
      (∀ m ∈ hs, m.role = .assistant → outputFree m.content) →
      (hs.foldl (fun p m => if m.role = .assistant
        then extractCalls p.1 p.2 (parseActionCalls m.content) else p) ([], []))
        = (([], []) : List Json × List Event) := by
    intro hs
    induction hs with
    | nil => intro _; rfl
    | cons m rest ih =>
      intro hhs
      rw [List.foldl_cons]
      by_cases hrole : m.role = .assistant
      · rw [if_pos hrole]
        rw [extractCalls_skip (parseActionCalls m.content) [] []
          (hhs m (List.mem_cons_self m rest) hrole)]
        exact ih (fun m2 hm2 => hhs m2 (List.mem_cons_of_mem m hm2))
      · rw [if_neg hrole]
        exact ih (fun m2 hm2 => hhs m2 (List.mem_cons_of_mem m hm2))
  rw [hfold history hh]
  exact extractCalls_skip (parseActionCalls r) [] [] hr

theorem trackCalls_acc_extend (calls : List ActionCall) :
    ∀ acc evs, ∃ l, (trackCalls acc evs calls).1 = acc ++ l := by
  induction calls with
  | nil => intro acc evs; exact ⟨[], by simp [trackCalls]⟩
  | cons call rest ih =>
    intro acc evs
    unfold trackCalls
    dsimp only
    by_cases h1 : jsEqString call.action "user_output" = true
    · rw [if_pos h1]
      exact ih acc evs
    · rw [if_neg h1]
      by_cases h2 : (acc.any fun e => jsStrictEq e.actionName call.action
          && (jsonStringify e.parameters == jsonStringify call.parameters)) = true
      · rw [if_pos h2]
        exact ih acc evs
      · rw [if_neg h2]
        obtain ⟨l, hl⟩ := ih (acc ++ [⟨call.action, call.parameters, .null⟩])
          (evs ++ [.actionExecuted call.action call.parameters])
        exact ⟨⟨call.action, call.parameters, .null⟩ :: l, by rw [hl]; simp⟩

theorem trackCalls_ne_nil (calls : List ActionCall) :
    ∀ acc evs,
    ((∃ call ∈ calls, jsEqString call.action "user_output" = false) ∨ acc ≠ []) →
    (trackCalls acc evs calls).1 ≠ [] := by
  induction calls with
  | nil =>
    intro acc evs h
    rcases h with ⟨c, hc, -⟩ | h
    · simp at hc
    · simpa [trackCalls] using h
  | cons call rest ih =>
    intro acc evs h
    unfold trackCalls
    dsimp only
    by_cases h1 : jsEqString call.action "user_output" = true
    · rw [if_pos h1]
      apply ih
      rcases h with ⟨c, hc, hcf⟩ | hacc
      · rcases List.mem_cons.mp hc with hceq | hcr
        · rw [hceq] at hcf
          rw [h1] at hcf
          cases hcf
        · exact Or.inl ⟨c, hcr, hcf⟩
      · exact Or.inr hacc
    · rw [if_neg h1]
      by_cases h2 : (acc.any fun e => jsStrictEq e.actionName call.action
          && (jsonStringify e.parameters == jsonStringify call.parameters)) = true
      · rw [if_pos h2]
        apply ih
        right
        intro hnil
        rw [hnil] at h2
        simp at h2
      · rw [if_neg h2]
        apply ih
        right
        simp

theorem trackExecutedActions_ne_nil (history : List Message)
    (h : ∃ m ∈ history, m.role = .assistant ∧
      ∃ call ∈ parseActionCalls m.content, jsEqString call.action "user_output" = false) :
    (trackExecutedActions history).1 ≠ [] := by
  unfold trackExecutedActions
  suffices hgen : ∀ (hs : List Message) (p : List ActionExecution × List Event),
      ((∃ m ∈ hs, m.role = .assistant ∧ ∃ call ∈ parseActionCalls m.content,
        jsEqString call.action "user_output" = false) ∨ p.1 ≠ []) →
      (hs.foldl (fun p m => if m.role = .assistant
        then trackCalls p.1 p.2 (parseActionCalls m.content) else p) p).1 ≠ [] by
    exact hgen history ([], []) (Or.inl h)
  intro hs
  induction hs with
  | nil =>
    intro p hp
    rcases hp with ⟨m, hm, -⟩ | hp
    · simp at hm
    · simpa using hp
  | cons m rest ih =>
    intro p hp
    rw [List.foldl_cons]
    rcases hp with ⟨m', hm', hrole, hcall⟩ | hp
    · rcases List.mem_cons.mp hm' with hmeq | hmr
      · rw [hmeq] at hrole hcall
        rw [if_pos hrole]
        exact ih _ (Or.inr (trackCalls_ne_nil (parseActionCalls m.content) p.1 p.2
          (Or.inl hcall)))
      · exact ih _ (Or.inl ⟨m', hmr, hrole, hcall⟩)
    · apply ih
      by_cases hrole : m.role = .assistant
      · rw [if_pos hrole]
        right
        obtain ⟨l, hl⟩ := trackCalls_acc_extend (parseActionCalls m.content) p.1 p.2
        rw [hl]
        intro hnil
        exact hp (List.append_eq_nil.mp hnil).1
      · rw [if_neg hrole]
        exact Or.inr hp


/-- C9: when chat succeeds, some assistant message of the transcript carries
an action call other than user_output, and no user_output message is
collected from the transcript or the final response, run returns exactly one
synthesized notification naming the executed actions as its outputs list, and
that same message is emitted through the onUserOutput observer. -/
theorem run_auto_notification (provider : Nat → String) (registry : List IAction)
    (opts : AgentOptions) (h0 : List Message) (umsg : String) (r : String)
    (hok : (chat provider registry opts h0 umsg).result = .ok r)
    (hacted : ∃ m ∈ (chat provider registry opts h0 umsg).history, m.role = .assistant ∧
      ∃ call ∈ parseActionCalls m.content, jsEqString call.action "user_output" = false)
    (hnoout : ∀ m ∈ (chat provider registry opts h0 umsg).history,
      m.role = .assistant → outputFree m.content)
    (hnooutR : outputFree r) :
    (run provider registry opts h0 umsg).result.outputs
        = [.str (generateAutoNotification
            (trackExecutedActions (chat provider registry opts h0 umsg).history).1)]
      ∧ (run provider registry opts h0 umsg).result.actionsExecuted
        = (trackExecutedActions (chat provider registry opts h0 umsg).history).1
      ∧ Event.userOutput (.str (generateAutoNotification
            (trackExecutedActions (chat provider registry opts h0 umsg).history).1))
          ∈ (run provider registry opts h0 umsg).events := by
  have htrack := trackExecutedActions_ne_nil _ hacted
  have hext := extractUserOutputs_empty _ r hnoout hnooutR
  have hemp : (trackExecutedActions (chat provider registry opts h0 umsg).history).1.isEmpty
      = false := by
    cases hp : (trackExecutedActions (chat provider registry opts h0 umsg).history).1 with
    | nil => exact absurd hp htrack
    | cons a l => rfl
  unfold run
  dsimp only
  rw [hok]
  dsimp only
  rw [hext, hemp]
  dsimp only
  rw [if_pos (show (!false && ([] : List Json).isEmpty) = true from rfl)]
  refine ⟨by simp, rfl, by simp⟩


set_option maxRecDepth 40000 in
/-- Witness for C9: the weather scenario calls get_weather in round one and
ends with a plain final answer, never emitting user_output; run returns
exactly the synthesized notification naming get_weather and emits it through
the observer. -/
theorem run_auto_notification_witness :
    (run weatherProvider [weatherAction] ⟨10, none, none⟩ [] "weather?").result.outputs
        = [.str (generateAutoNotification
            (trackExecutedActions
              (chat weatherProvider [weatherAction] ⟨10, none, none⟩ [] "weather?").history).1)]
      ∧ (run weatherProvider [weatherAction] ⟨10, none, none⟩ [] "weather?").result.actionsExecuted
        = (trackExecutedActions
            (chat weatherProvider [weatherAction] ⟨10, none, none⟩ [] "weather?").history).1
      ∧ Event.userOutput (.str (generateAutoNotification
            (trackExecutedActions
              (chat weatherProvider [weatherAction] ⟨10, none, none⟩ [] "weather?").history).1))
          ∈ (run weatherProvider [weatherAction] ⟨10, none, none⟩ [] "weather?").events :=
  run_auto_notification weatherProvider [weatherAction] ⟨10, none, none⟩ [] "weather?"
    "All done." rfl (by decide) (by decide) (by decide)

end Chisato
